import Mathlib

/-!
Verification of the miniapp-template agent orchestration core

Shallow embedding of the development-job orchestration system:

* `Chan`: the single-consumer asynchronous channel
  (`Stream<T>` in `src/agent/src/agents/gemini/stream.ts`, lines 3-83);
* `Gemini`: the unstructured-backend stream adapter
  (`GeminiQuery.readMessages` and friends in the same file);
* `Executor`: the per-backend development cycle
  (`src/agent/src/agents/claude-code/executor.ts`);
* `Coordinator`: the build-verify-retry loop
  (`src/agent/src/index.ts`);
* `Manager`: the session/job manager HTTP handlers
  (`src/agent/src/utils/pocketbase-collections.ts`, agent-api section).
-/

namespace Chan

/-- State of the `Stream<T>` channel from `stream.ts`:
`queue` is the buffered-value array, `isDone` the `isDone` flag,
`storedError` the `hasError` field, and `pendingReader` records whether a
`readResolve`/`readReject` pair from an unanswered `next()` is registered.
Errors are represented by their message strings. -/
structure State (α : Type) where
  queue : List α
  isDone : Bool
  storedError : Option String
  pendingReader : Bool
deriving Repr, DecidableEq

/-- The freshly constructed stream: empty queue, not done, no error,
no pending reader. -/
def init (α : Type) : State α := ⟨[], false, none, false⟩

/-- An event acting on the channel: a consumer `next()` call, or one of the
producer-side calls `enqueue(value)`, `done()`, `error(e)` (written `fail`). -/
inductive Event (α : Type)
  | next
  | enqueue (v : α)
  | done
  | fail (e : String)
deriving Repr, DecidableEq

/-- A response delivered to the consumer: a yielded value, a
`{done:true}` completion, or a rejected promise. -/
inductive Out (α : Type)
  | value (v : α)
  | finished
  | rejected (e : String)
deriving Repr, DecidableEq

/-- One event of the channel, following `stream.ts` line by line:
`next()` serves the queue first, then the `isDone` flag, then the stored
error, and otherwise registers a pending reader; `enqueue` resolves a
pending reader directly or appends to the queue; `done()` sets `isDone`
and resolves a pending reader with completion; `error(e)` stores the error
and rejects a pending reader.  The second component is the response (if
any) delivered to the consumer by this event. -/
def step (s : State α) : Event α → State α × Option (Out α)
  | .next =>
    match s.queue with
    | v :: rest => ({ s with queue := rest }, some (.value v))
    | [] =>
      if s.isDone then (s, some .finished)
      else
        match s.storedError with
        | some e => (s, some (.rejected e))
        | none => ({ s with pendingReader := true }, none)
  | .enqueue v =>
    if s.pendingReader then ({ s with pendingReader := false }, some (.value v))
    else ({ s with queue := s.queue ++ [v] }, none)
  | .done =>
    if s.pendingReader then ({ s with isDone := true, pendingReader := false }, some .finished)
    else ({ s with isDone := true }, none)
  | .fail e =>
    if s.pendingReader then
      ({ s with storedError := some e, pendingReader := false }, some (.rejected e))
    else ({ s with storedError := some e }, none)

/-- Run the channel over a list of events, collecting the responses
delivered to the consumer in order. -/
def run (s : State α) : List (Event α) → State α × List (Out α)
  | [] => (s, [])
  | ev :: evs =>
    ((run (step s ev).1 evs).1, (step s ev).2.toList ++ (run (step s ev).1 evs).2)

/-- The values among a response list, in order. -/
def outValues : List (Out α) → List α
  | [] => []
  | .value v :: r => v :: outValues r
  | .finished :: r => outValues r
  | .rejected _ :: r => outValues r

/-- The values carried by the `enqueue` events of a trace, in order. -/
def enqueuedValues : List (Event α) → List α
  | [] => []
  | .enqueue v :: evs => v :: enqueuedValues evs
  | .next :: evs => enqueuedValues evs
  | .done :: evs => enqueuedValues evs
  | .fail _ :: evs => enqueuedValues evs

/-- The values enqueued strictly before the first `done()` call of a trace. -/
def enqueuedBeforeDone : List (Event α) → List α
  | [] => []
  | .enqueue v :: evs => v :: enqueuedBeforeDone evs
  | .next :: evs => enqueuedBeforeDone evs
  | .done :: _ => []
  | .fail _ :: evs => enqueuedBeforeDone evs

/-- The values an event contributes to the enqueue order. -/
def enqOf : Event α → List α
  | .enqueue v => [v]
  | _ => []

/-- Recognizer for the `done()` event. -/
def isDoneEvent : Event α → Bool
  | .done => true
  | _ => false

end Chan

namespace Gemini

/-- JavaScript strings of the adapter are modelled as character lists, so
that `trim`, `startsWith` and `includes` are explicit list functions. -/
abbrev JSStr := List Char

/-- Whitespace as removed by `String.prototype.trim` (restricted to the
ASCII whitespace actually occurring in CLI output). -/
def isWS (c : Char) : Bool := c == ' ' || c == '\t' || c == '\n' || c == '\r'

/-- Model of `line.trim()`. -/
def jsTrim (s : JSStr) : JSStr := ((s.dropWhile isWS).reverse.dropWhile isWS).reverse

/-- Convert a Lean string literal into the character-list model. -/
def lit (s : String) : JSStr := s.toList

/-- Model of `s.startsWith(pat)`. -/
def jsStartsWith (s pat : JSStr) : Bool := pat.isPrefixOf s

/-- Model of `s.includes(pat)`. -/
def jsIncludes (s pat : JSStr) : Bool := s.tails.any (fun t => pat.isPrefixOf t)

/-- Model of `GeminiQuery.isDebugOrMetaLine` (stream.ts): classifies tool
diagnostics, dotenv banners, Node warnings and telemetry lines as noise. -/
def isDebugOrMetaLine (line : JSStr) : Bool :=
  jsStartsWith line (lit "[DEBUG]") ||
  jsStartsWith line (lit "[dotenv@") ||
  jsIncludes line (lit "injecting env") ||
  jsStartsWith line (lit "(node:") ||
  jsIncludes line (lit "DeprecationWarning") ||
  jsIncludes line (lit "Flushing log events") ||
  jsIncludes line (lit "Clearcut response") ||
  jsIncludes line (lit "[MemoryDiscovery]") ||
  jsIncludes line (lit "[BfsFileSearch]") ||
  jsIncludes line (lit "CLI: Delegating") ||
  line == []

/-- The fields of an SDK `result` message that the adapter fills in. -/
structure ResultFields where
  subtype : String
  resultText : Option JSStr
  numTurns : Nat
  outputTokens : Nat
deriving Repr, DecidableEq

/-- The SDK messages the adapter emits (it never emits `user` messages). -/
inductive Msg
  | system (subtype : String) (model : String)
  | assistant (content : JSStr)
  | result (f : ResultFields)
deriving Repr, DecidableEq

/-- Model of `sendSystemMessage`: the synthesized opening frame. -/
def systemMessage : Msg := .system "init" "gemini-2.5-pro"

/-- Model of `sendResultMessage(result, isError)`: the terminal message; on success
the output-token count is approximated by the result length. -/
def sendResultMessage (res : JSStr) (isError : Bool) (numTurns : Nat) : Msg :=
  if isError then .result ⟨"error_during_execution", none, numTurns, 0⟩
  else .result ⟨"success", some res, numTurns, res.length⟩

/-- The lines whose `trim()` is non-empty (the `if (line.trim())` guard of
the read loop); these feed `outputBuffer` and the turn counter. -/
def nonBlank (lines : List JSStr) : List JSStr :=
  lines.filter (fun l => !(jsTrim l).isEmpty)

/-- The trimmed lines forwarded as `assistant` messages: non-blank and not
classified as noise. -/
def forwardedLines (lines : List JSStr) : List JSStr :=
  lines.filterMap (fun l =>
    let c := jsTrim l
    if !c.isEmpty && !isDebugOrMetaLine c then some c else none)

/-- Model of `outputBuffer`: every non-blank raw line, newline-terminated. -/
def outputBuffer (lines : List JSStr) : JSStr :=
  ((nonBlank lines).map (fun l => l ++ ['\n'])).flatten

/-- Model of `aiResponseBuffer`: every forwarded (trimmed) line, newline-terminated. -/
def aiBuffer (lines : List JSStr) : JSStr :=
  ((forwardedLines lines).map (fun c => c ++ ['\n'])).flatten

/-- Model of `numTurns`: incremented once per non-blank line. -/
def numTurns (lines : List JSStr) : Nat := (nonBlank lines).length

/-- The success text: `aiResponseBuffer.trim() || outputBuffer.trim()`. -/
def finalText (lines : List JSStr) : JSStr :=
  let ai := jsTrim (aiBuffer lines)
  if ai.isEmpty then jsTrim (outputBuffer lines) else ai

/-- The message sequence `readMessages` produces for a run whose subprocess
printed `lines` and then exited (`cleanExit` tells whether
`processExitPromise` resolved or rejected): one system message, one
assistant message per forwarded line, and one terminal result message. -/
def readMessagesList (lines : List JSStr) (cleanExit : Bool) : List Msg :=
  systemMessage :: (forwardedLines lines).map .assistant ++
    [if cleanExit then sendResultMessage (finalText lines) false (numTurns lines)
     else sendResultMessage [] true (numTurns lines)]

/-- The channel events `readMessages` performs on `inputStream` for the same
run: the enqueues of `readMessagesList`, and on a rejected exit the stored
error (`inputStream.error`) before the final `done()`. -/
def readMessagesEvents (lines : List JSStr) (exitError : Option String) :
    List (Chan.Event Msg) :=
  .enqueue systemMessage ::
    (forwardedLines lines).map (fun c => .enqueue (.assistant c)) ++
    (match exitError with
     | none => [.enqueue (sendResultMessage (finalText lines) false (numTurns lines)), .done]
     | some e => [.enqueue (sendResultMessage [] true (numTurns lines)), .fail e, .done])

/-- Recognizers for message kinds. -/
def isSystemMsg : Msg → Bool
  | .system _ _ => true
  | _ => false

def isResultMsg : Msg → Bool
  | .result _ => true
  | _ => false

/-- The error message built by the `query` spawn-failure handler. -/
def spawnFailure : String := "Failed to spawn Gemini CLI process: spawn gemini ENOENT"

end Gemini

namespace Executor

/-- The stdout/stderr a failed `npm run build` produced. -/
structure BuildOutput where
  stdout : String
  stderr : String
deriving Repr, DecidableEq

/-- A thrown JavaScript error, identified by its `name`; a `BuildError`
additionally carries the captured build output. -/
structure ThrownError where
  name : String
  buildOutput : Option BuildOutput
deriving Repr, DecidableEq

/-- The externally determined outcomes of the three steps of one attempt of
`executeDevelopmentCycle`: what `executeClaudeCode` does (throws, or
returns the new backend session token), whether `npm run build` fails, and
whether the final status update throws. -/
structure StepOutcomes where
  claude : Except ThrownError (Option String)
  buildFails : Option BuildOutput
  updateCompleted : Option ThrownError
deriving Repr

/-- The steps `executeDevelopmentCycle` actually performs, in order. -/
inductive Step
  | claude
  | build
  | updateCompleted
deriving Repr, DecidableEq

/-- The value `executeDevelopmentCycle` resolves with. -/
structure CycleResult where
  success : Bool
  sessionId : Option String
  buildErrorPrompt : Option String
deriving Repr, DecidableEq

/-- The corrective prompt synthesized from a build failure
(template literal in the `BuildError` branch of `executeDevelopmentCycle`;
a missing `buildOutput` renders as JavaScript `undefined`). -/
def buildErrorPromptOf (bo : Option BuildOutput) : String :=
  "Previous build failed with the following error. Please fix the build issues and ensure the code compiles successfully:\n\nBuild Error Details:\n" ++
    (match bo with
     | some b => b.stderr
     | none => "undefined") ++
    "\n\n" ++
    (match bo with
     | some b => if b.stdout ≠ "" then "Build Output:\n" ++ b.stdout else ""
     | none => "")

/-- Model of `executeDevelopmentCycle` (executor.ts): run the agent session, then
the build, then mark the record completed; a thrown `BuildError` is caught
and converted into `{success:false, buildErrorPrompt}` with the *incoming*
session token, every other error is re-thrown.  Returns the list of steps
performed alongside the result. -/
def executeDevelopmentCycle (env : StepOutcomes) (sessionId : Option String) :
    List Step × Except ThrownError CycleResult :=
  match env.claude with
  | .error err =>
    if err.name == "BuildError" then
      ([.claude], .ok ⟨false, sessionId, some (buildErrorPromptOf err.buildOutput)⟩)
    else ([.claude], .error err)
  | .ok newSid =>
    match env.buildFails with
    | some bo =>
      ([.claude, .build], .ok ⟨false, sessionId, some (buildErrorPromptOf (some bo))⟩)
    | none =>
      match env.updateCompleted with
      | some err =>
        if err.name == "BuildError" then
          ([.claude, .build, .updateCompleted],
            .ok ⟨false, sessionId, some (buildErrorPromptOf err.buildOutput)⟩)
        else ([.claude, .build, .updateCompleted], .error err)
      | none => ([.claude, .build, .updateCompleted], .ok ⟨true, newSid, none⟩)

end Executor

namespace Coordinator

/-- The outcome of one call of `agent.executeDevelopmentCycle` as the retry
loop of `index.ts` observes it: a successful attempt, a build failure
(`success:false` with the corrective prompt and the returned session
token), or a thrown error identified by its `name`. -/
inductive CycleOutcome
  | success (sessionId : Option String)
  | buildFailure (sessionId : Option String) (buildErrorPrompt : String)
  | thrown (errName : String)
deriving Repr, DecidableEq

/-- One started attempt: its 1-based number, the prompt passed to the
backend, and the backend session token passed for conversation resumption. -/
structure AttemptRecord where
  idx : Nat
  prompt : String
  sessionId : Option String
deriving Repr, DecidableEq

/-- How the retry loop ends: normal completion after a successful attempt,
a fatal exit after the final attempt failed (the development record is
updated to `ERROR` with this error name and session token), or falling out
of the loop (unreachable: every iteration either breaks or throws). -/
inductive FinalResult
  | completed (sessionId : Option String)
  | failed (errName : String) (sessionId : Option String)
  | fellThrough (sessionId : Option String)
deriving Repr, DecidableEq

/-- The `while (attempt < maxRetries)` loop of `index.ts`, with
`fuel = maxRetries - attempt` remaining iterations.  `script k` is the
outcome of attempt `k`.  On `success` the loop breaks.  On a build failure
the code sets `currentAiPrompt := result.buildErrorPrompt`,
`sessionId := result.sessionId` and throws a synthetic `BuildError`, whose
catch — when attempts remain — retries with those values.  On any other
thrown error the catch retries as well, but resets the prompt to the
original `aiPrompt` and keeps the session token; only on the last attempt
is the error fatal and the record marked errored. -/
def runFrom (script : Nat → CycleOutcome) (origPrompt : String) :
    Nat → Nat → String → Option String → List AttemptRecord × FinalResult
  | 0, _, _, sid => ([], .fellThrough sid)
  | fuel + 1, attempt, curPrompt, sid =>
    match script (attempt + 1) with
    | .success newSid => ([⟨attempt + 1, curPrompt, sid⟩], .completed newSid)
    | .buildFailure newSid bp =>
      match fuel with
      | 0 => ([⟨attempt + 1, curPrompt, sid⟩], .failed "BuildError" newSid)
      | fuel' + 1 =>
        (⟨attempt + 1, curPrompt, sid⟩ ::
            (runFrom script origPrompt (fuel' + 1) (attempt + 1) bp newSid).1,
          (runFrom script origPrompt (fuel' + 1) (attempt + 1) bp newSid).2)
    | .thrown name =>
      match fuel with
      | 0 => ([⟨attempt + 1, curPrompt, sid⟩], .failed name sid)
      | fuel' + 1 =>
        (⟨attempt + 1, curPrompt, sid⟩ ::
            (runFrom script origPrompt (fuel' + 1) (attempt + 1)
              (if name == "BuildError" then curPrompt else origPrompt) sid).1,
          (runFrom script origPrompt (fuel' + 1) (attempt + 1)
            (if name == "BuildError" then curPrompt else origPrompt) sid).2)

/-- Model of `const maxRetries = 3`. -/
def maxRetries : Nat := 3

/-- The whole retry loop of `index.ts`: starting at attempt 0 with the
original AI prompt and the (optionally resumed) session token. -/
def coordinatorRun (script : Nat → CycleOutcome) (aiPrompt : String)
    (initialSid : Option String) : List AttemptRecord × FinalResult :=
  runFrom script aiPrompt maxRetries 0 aiPrompt initialSid

/-- Script of a job whose first attempt fails the build and whose second
succeeds. -/
def buildRetryScript : Nat → CycleOutcome :=
  fun k =>
    if k = 1 then .buildFailure (some "sess-1") "fix the TS2304 error"
    else .success (some "sess-1")

/-- Script of a job whose first attempt throws an
`InsufficientCreditError` and whose second succeeds. -/
def creditScript : Nat → CycleOutcome :=
  fun k => if k = 1 then .thrown "InsufficientCreditError" else .success none

end Coordinator

namespace Manager

/-- Session status of the agent-API session registry. -/
inductive SessionStatus
  | running
  | completed
  | stopped
  | error
deriving Repr, DecidableEq

/-- The registry entry for one session (`AgentSession`), restricted to the
fields the stop, cleanup and close-handler logic reads: `startTime` is the
`Date.now()` at creation, `exitCode` is the child process's exit code
(`none` while it has not exited). -/
structure Session where
  sessionId : String
  status : SessionStatus
  startTime : Int
  exitCode : Option Int
deriving Repr, DecidableEq

/-- The HTTP response of `POST /stop/agent/:sessionId`. -/
inductive StopResponse
  | notFound
  | notRunning
  | stopSignalSent
deriving Repr, DecidableEq

/-- The observable effect of the stop handler: the response, the session as
left in the registry, whether `SIGTERM` was sent, and whether the 5-second
forced-kill timer was scheduled. -/
structure StopEffect where
  response : StopResponse
  session : Option Session
  sentSigterm : Bool
  forceKillScheduled : Bool
deriving Repr, DecidableEq

/-- Model of `POST /stop/agent/:sessionId`: 404 when the session is unknown; 400 and
no state change unless the status is `running`; otherwise send `SIGTERM`,
set the status to `stopped` immediately, and schedule the forced kill. -/
def stopAgent (s : Option Session) : StopEffect :=
  match s with
  | none => ⟨.notFound, none, false, false⟩
  | some sess =>
    if sess.status ≠ .running then ⟨.notRunning, some sess, false, false⟩
    else ⟨.stopSignalSent, some { sess with status := .stopped }, true, true⟩

/-- The 5-second grace-period callback: `SIGKILL` is sent exactly when the
process has not exited yet (`childProcess.exitCode === null`). -/
def graceKillFires (sess : Session) : Bool := sess.exitCode == none

/-- The retention window of the cleanup sweep: 30 minutes in milliseconds. -/
def retentionMs : Int := 30 * 60 * 1000

/-- The sweep interval: the cleanup runs every 60 seconds. -/
def sweepIntervalMs : Int := 60000

/-- The removal condition of the periodic cleanup:
`status !== 'running' && now - startTime > 30 * 60 * 1000`. -/
def sweepRemoves (now : Int) (s : Session) : Bool :=
  decide (s.status ≠ .running) && decide (now - s.startTime > retentionMs)

/-- One run of the cleanup `setInterval` body over the registry. -/
def cleanupSweep (now : Int) (sessions : List Session) : List Session :=
  sessions.filter (fun s => !sweepRemoves now s)

/-- The coarse metadata `GET /sessions/agent` returns per session. -/
structure SessionSummary where
  sessionId : String
  status : SessionStatus
  startTime : Int
  exitCode : Option Int
deriving Repr, DecidableEq

/-- Model of `GET /sessions/agent`: a snapshot of every registered session. -/
def listSessions (sessions : List Session) : List SessionSummary :=
  sessions.map (fun s => ⟨s.sessionId, s.status, s.startTime, s.exitCode⟩)

/-- The status the child-process `close` handler assigns: a non-zero (or
null) exit code of a session not already stopped means `error`; otherwise a
stopped session stays `stopped` and any other becomes `completed`. -/
def closeHandlerStatus (st : SessionStatus) (exitCode : Option Int) : SessionStatus :=
  if exitCode ≠ some 0 ∧ st ≠ .stopped then .error
  else if st = .stopped then .stopped else .completed

/-- The exit-code field the close handler stores: `exitCode || 0`. -/
def closeHandlerExitCode (exitCode : Option Int) : Int :=
  match exitCode with
  | some c => if c == 0 then 0 else c
  | none => 0

end Manager

namespace Chan

theorem enqueuedValues_cons (ev : Event α) (evs : List (Event α)) :
    enqueuedValues (ev :: evs) = enqOf ev ++ enqueuedValues evs := by
  cases ev <;> rfl

theorem outValues_append (a b : List (Out α)) :
    outValues (a ++ b) = outValues a ++ outValues b := by
  induction a with
  | nil => rfl
  | cons o r ih => cases o <;> simp [outValues, ih]

theorem run_append (s : State α) (p q : List (Event α)) :
    run s (p ++ q) =
      ((run (run s p).1 q).1, (run s p).2 ++ (run (run s p).1 q).2) := by
  induction p generalizing s with
  | nil => simp [run]
  | cons ev evs ih =>
    simp only [List.cons_append, run, ih, List.append_assoc, List.append_eq]

/-- The pending-reader flag is only set with an empty queue; one event
preserves that. -/
theorem step_pending (s : State α) (ev : Event α)
    (h : s.pendingReader = true → s.queue = []) :
    (step s ev).1.pendingReader = true → (step s ev).1.queue = [] := by
  cases ev with
  | next =>
    cases hq : s.queue with
    | nil =>
      cases hd : s.isDone with
      | true => simp [step, hq, hd]
      | false =>
        cases he : s.storedError with
        | some e => simp [step, hq, hd, he]
        | none => simp [step, hq, hd, he]
    | cons v rest =>
      simp only [step, hq]
      intro hp
      exact absurd (h hp) (by simp [hq])
  | enqueue v =>
    by_cases hp : s.pendingReader
    · simp [step, hp]
    · simp [step, hp]
  | done =>
    by_cases hp : s.pendingReader <;> simp [step, hp]
  | fail e =>
    by_cases hp : s.pendingReader <;> simp [step, hp]

/-- A pending reader can only be registered with an empty queue, and this is
preserved along any run. -/
theorem pending_queue_nil (s : State α) (evs : List (Event α))
    (h : s.pendingReader = true → s.queue = []) :
    (run s evs).1.pendingReader = true → (run s evs).1.queue = [] := by
  induction evs generalizing s with
  | nil => simpa [run] using h
  | cons ev evs ih =>
    simp only [run]
    exact ih _ (step_pending s ev h)

/-- One-event delivery equation: the values delivered by the event plus the
new buffer equal the old buffer plus the values the event enqueued. -/
theorem step_values (s : State α) (ev : Event α)
    (h : s.pendingReader = true → s.queue = []) :
    outValues (step s ev).2.toList ++ (step s ev).1.queue = s.queue ++ enqOf ev := by
  cases ev with
  | next =>
    cases hq : s.queue with
    | nil =>
      cases hd : s.isDone with
      | true => simp [step, hq, hd, outValues, enqOf]
      | false =>
        cases he : s.storedError with
        | some e => simp [step, hq, hd, he, outValues, enqOf]
        | none => simp [step, hq, hd, he, outValues, enqOf]
    | cons v rest => simp [step, hq, outValues, enqOf]
  | enqueue v =>
    by_cases hp : s.pendingReader
    · simp [step, hp, outValues, enqOf, h hp]
    · simp [step, hp, outValues, enqOf]
  | done =>
    by_cases hp : s.pendingReader <;> simp [step, hp, outValues, enqOf]
  | fail e =>
    by_cases hp : s.pendingReader <;> simp [step, hp, outValues, enqOf]

/-- Delivery equation: the values delivered to the consumer, followed by the
values still buffered, are exactly the initial buffer followed by the values
enqueued during the trace.  In particular delivery is FIFO. -/
theorem run_values_eq (s : State α) (evs : List (Event α))
    (h : s.pendingReader = true → s.queue = []) :
    outValues (run s evs).2 ++ (run s evs).1.queue = s.queue ++ enqueuedValues evs := by
  induction evs generalizing s with
  | nil => simp [run, outValues, enqueuedValues]
  | cons ev evs ih =>
    have hstep := step_values s ev h
    have hih := ih (step s ev).1 (step_pending s ev h)
    simp only [run, outValues_append, List.append_assoc] at *
    rw [hih, ← List.append_assoc, hstep, enqueuedValues_cons, List.append_assoc]

theorem step_isDone (s : State α) (ev : Event α) :
    (step s ev).1.isDone = (s.isDone || isDoneEvent ev) := by
  cases ev with
  | next =>
    cases hq : s.queue with
    | nil =>
      cases hd : s.isDone with
      | true => simp [step, hq, hd, isDoneEvent]
      | false =>
        cases he : s.storedError with
        | some e => simp [step, hq, hd, he, isDoneEvent]
        | none => simp [step, hq, hd, he, isDoneEvent]
    | cons v rest => simp [step, hq, isDoneEvent]
  | enqueue v => by_cases hp : s.pendingReader <;> simp [step, hp, isDoneEvent]
  | done => by_cases hp : s.pendingReader <;> simp [step, hp, isDoneEvent]
  | fail e => by_cases hp : s.pendingReader <;> simp [step, hp, isDoneEvent]

/-- The `isDone` flag after a run records whether a `done()` event occurred. -/
theorem run_isDone (s : State α) (evs : List (Event α)) :
    (run s evs).1.isDone = (s.isDone || evs.any isDoneEvent) := by
  induction evs generalizing s with
  | nil => simp [run]
  | cons ev evs ih =>
    simp only [run, ih, step_isDone, List.any_cons, Bool.or_assoc]

theorem enqueuedBeforeDone_append (p r : List (Event α)) :
    enqueuedBeforeDone (p ++ r) =
      if p.any isDoneEvent then enqueuedBeforeDone p
      else enqueuedValues p ++ enqueuedBeforeDone r := by
  induction p with
  | nil => simp [enqueuedBeforeDone, enqueuedValues]
  | cons ev evs ih =>
    cases ev with
    | next => simpa [enqueuedBeforeDone, enqueuedValues, isDoneEvent] using ih
    | enqueue v =>
      simp only [List.cons_append, enqueuedBeforeDone, enqueuedValues,
        List.any_cons, isDoneEvent, Bool.false_or, List.append_eq]
      rw [ih]
      by_cases hc : evs.any isDoneEvent <;> simp [hc]
    | done => simp [enqueuedBeforeDone, enqueuedValues, isDoneEvent]
    | fail e => simpa [enqueuedBeforeDone, enqueuedValues, isDoneEvent] using ih

theorem enqueuedBeforeDone_prefix_of_values (evs : List (Event α)) :
    enqueuedBeforeDone evs <+: enqueuedValues evs := by
  induction evs with
  | nil => simp [enqueuedBeforeDone, enqueuedValues]
  | cons ev evs ih =>
    cases ev with
    | next => simpa [enqueuedBeforeDone, enqueuedValues] using ih
    | enqueue v =>
      simpa [enqueuedBeforeDone, enqueuedValues] using ih
    | done =>
      simp [enqueuedBeforeDone, enqueuedValues]
    | fail e => simpa [enqueuedBeforeDone, enqueuedValues] using ih

/-- Each response at position `n` of a run is produced by a unique event of
the trace, and the responses before it are exactly the responses of the
trace prefix up to that event. -/
theorem run_out_split (s : State α) (evs : List (Event α)) (n : Nat) (o : Out α)
    (h : (run s evs).2.get? n = some o) :
    ∃ p ev q, evs = p ++ ev :: q ∧ (step (run s p).1 ev).2 = some o ∧
      (run s evs).2.take n = (run s p).2 := by
  induction evs generalizing s n with
  | nil => simp [run] at h
  | cons ev evs ih =>
    cases hstep : (step s ev).2 with
    | none =>
      rw [run] at h
      rw [hstep] at h
      simp only [Option.toList, List.nil_append] at h
      obtain ⟨p', ev', q', hsplit, hstep', htake⟩ := ih (step s ev).1 n h
      refine ⟨ev :: p', ev', q', by simp [hsplit], ?_, ?_⟩
      · simpa [run] using hstep'
      · simp only [run, hstep, Option.toList, List.nil_append]
        exact htake
    | some o₀ =>
      cases n with
      | zero =>
        rw [run] at h
        rw [hstep] at h
        simp only [Option.toList, List.singleton_append, List.get?] at h
        refine ⟨[], ev, evs, rfl, ?_, by simp [run]⟩
        simp only [run]
        rw [hstep, h]
      | succ k =>
        rw [run] at h
        rw [hstep] at h
        simp only [Option.toList, List.singleton_append, List.get?] at h
        obtain ⟨p', ev', q', hsplit, hstep', htake⟩ := ih (step s ev).1 k h
        refine ⟨ev :: p', ev', q', by simp [hsplit], ?_, ?_⟩
        · simpa [run] using hstep'
        · simp only [run, hstep, Option.toList, List.singleton_append, List.take]
          rw [htake]

/-- Only a `next()` on an empty, completed channel, or a `done()` with a
pending reader, can answer the consumer with completion; in either case the
buffer is empty at that moment. -/
theorem finished_queue_nil (t : State α) (ev : Event α)
    (hpq : t.pendingReader = true → t.queue = [])
    (h : (step t ev).2 = some .finished) :
    t.queue = [] ∧ (t.isDone = true ∨ isDoneEvent ev = true) := by
  cases ev with
  | next =>
    cases hq : t.queue with
    | nil =>
      cases hd : t.isDone with
      | true => exact ⟨rfl, Or.inl rfl⟩
      | false =>
        exfalso
        cases he : t.storedError with
        | some e => rw [step] at h; rw [hq] at h; simp [hd, he] at h
        | none => rw [step] at h; rw [hq] at h; simp [hd, he] at h
    | cons v rest =>
      exfalso
      rw [step] at h
      rw [hq] at h
      simp at h
  | enqueue v =>
    exfalso
    by_cases hp : t.pendingReader <;> simp [step, hp] at h
  | done =>
    by_cases hp : t.pendingReader
    · exact ⟨hpq hp, Or.inr rfl⟩
    · exfalso; simp [step, hp] at h
  | fail e =>
    exfalso
    by_cases hp : t.pendingReader <;> simp [step, hp] at h

end Chan

namespace Gemini

theorem forall_mem_dropWhile {p : α → Bool} (l : List α) :
    (∀ a ∈ l.dropWhile p, p a = true) ↔ (∀ a ∈ l, p a = true) := by
  induction l with
  | nil => simp
  | cons a l ih =>
    by_cases h : p a
    · simpa [List.dropWhile_cons, h] using ih
    · simp [List.dropWhile_cons, h]

theorem dropWhile_head_false {p : α → Bool} (l : List α) (h : l.dropWhile p ≠ []) :
    ∃ x ∈ l.dropWhile p, p x = false := by
  induction l with
  | nil => simp at h
  | cons a l ih =>
    by_cases hp : p a
    · rw [List.dropWhile_cons, if_pos hp] at h
      simpa [List.dropWhile_cons, hp] using ih h
    · refine ⟨a, ?_, by simpa using hp⟩
      simp [List.dropWhile_cons, hp]

/-- Model of `trim` yields the empty string exactly when every character is
whitespace. -/
theorem jsTrim_eq_nil_iff (s : JSStr) :
    jsTrim s = [] ↔ ∀ c ∈ s, isWS c = true := by
  unfold jsTrim
  rw [List.reverse_eq_nil_iff, List.dropWhile_eq_nil_iff]
  constructor
  · intro h c hc
    refine (forall_mem_dropWhile s).mp ?_ c hc
    intro a ha
    exact h a (by simpa using ha)
  · intro h a ha
    have ha' : a ∈ s.dropWhile isWS := by simpa using ha
    exact (forall_mem_dropWhile s).mpr h a ha'

/-- A nonempty trimmed string contains a non-whitespace character. -/
theorem jsTrim_ne_nil_exists (s : JSStr) (h : jsTrim s ≠ []) :
    ∃ c ∈ jsTrim s, isWS c = false := by
  unfold jsTrim at h ⊢
  have hne : (s.dropWhile isWS).reverse.dropWhile isWS ≠ [] := by
    intro hcon
    exact h (by simp [hcon])
  obtain ⟨x, hx, hxf⟩ := dropWhile_head_false _ hne
  exact ⟨x, by simpa using hx, hxf⟩

end Gemini

namespace Chan

/-- Claim C6: The single-consumer Stream channel is FIFO: in every
interleaving of producer calls (`enqueue`, `done`, `error`) with consumer
`next()` calls, the values delivered to the consumer are a prefix of the
values enqueued, in enqueue order; and whenever the consumer receives the
completion response, every value enqueued before `done()` was already
delivered to it — so within one attempt the result message, enqueued last
before `done()`, is the last message the consumer sees. -/
theorem stream_fifo_order_and_completion (α : Type) (evs : List (Event α)) :
    outValues (run (init α) evs).2 <+: enqueuedValues evs ∧
    ∀ n, (run (init α) evs).2.get? n = some .finished →
      enqueuedBeforeDone evs <+: outValues ((run (init α) evs).2.take n) := by
  constructor
  · exact ⟨(run (init α) evs).1.queue,
      by simpa [init] using run_values_eq (init α) evs (by simp [init])⟩
  · intro n h
    obtain ⟨p, ev, q, hsplit, hstep, htake⟩ := run_out_split (init α) evs n .finished h
    have hpq : (run (init α) p).1.pendingReader = true → (run (init α) p).1.queue = [] :=
      pending_queue_nil (init α) p (by simp [init])
    obtain ⟨hqnil, hdone⟩ := finished_queue_nil _ ev hpq hstep
    have hval : outValues (run (init α) p).2 = enqueuedValues p := by
      have h2 := run_values_eq (init α) p (by simp [init])
      rw [hqnil] at h2
      simpa [init] using h2
    rw [htake, hval]
    rcases hdone with hd | hev
    · have hp_any : p.any isDoneEvent = true := by
        have h3 := run_isDone (init α) p
        rw [hd] at h3
        simpa [init] using h3.symm
      rw [hsplit, enqueuedBeforeDone_append, if_pos hp_any]
      exact enqueuedBeforeDone_prefix_of_values p
    · by_cases hp_any : p.any isDoneEvent
      · rw [hsplit, enqueuedBeforeDone_append, if_pos hp_any]
        exact enqueuedBeforeDone_prefix_of_values p
      · have hev' : ev = .done := by
          cases ev <;> simp [isDoneEvent] at hev ⊢
        rw [hsplit, enqueuedBeforeDone_append, if_neg hp_any, hev']
        exact ⟨[], by simp [enqueuedBeforeDone]⟩

/-- Witness for C6 at the concrete trace `enqueue 1, enqueue 2, done`
followed by a consumer draining the channel: both delivered values precede
the completion response. -/
theorem stream_fifo_order_and_completion_witness :
    outValues
        (run (init Nat) [.enqueue 1, .enqueue 2, .done, .next, .next, .next]).2 <+:
      enqueuedValues
        ([.enqueue 1, .enqueue 2, .done, .next, .next, .next] : List (Event Nat)) ∧
    enqueuedBeforeDone
        ([.enqueue 1, .enqueue 2, .done, .next, .next, .next] : List (Event Nat)) <+:
      outValues
        ((run (init Nat) [.enqueue 1, .enqueue 2, .done, .next, .next, .next]).2.take 2) :=
  ⟨(stream_fifo_order_and_completion Nat _).1,
   (stream_fifo_order_and_completion Nat
      [.enqueue 1, .enqueue 2, .done, .next, .next, .next]).2 2 rfl⟩

end Chan

namespace Gemini

theorem filter_system_map_assistant (fl : List JSStr) :
    ((fl.map Msg.assistant).filter isSystemMsg) = [] := by
  simp [List.filter_map, isSystemMsg]

theorem filter_result_map_assistant (fl : List JSStr) :
    ((fl.map Msg.assistant).filter isResultMsg) = [] := by
  simp [List.filter_map, isResultMsg]

/-- Claim C5: For every run of the unstructured-backend stream adapter —
whatever the subprocess printed and however it exited — the emitted message
sequence begins with exactly one `system` message and ends with exactly one
`result` message. -/
theorem adapter_system_first_result_last (lines : List JSStr) (cleanExit : Bool) :
    (readMessagesList lines cleanExit).head? = some systemMessage ∧
    ((readMessagesList lines cleanExit).filter isSystemMsg).length = 1 ∧
    ((readMessagesList lines cleanExit).filter isResultMsg).length = 1 ∧
    (∃ f, (readMessagesList lines cleanExit).getLast? = some (.result f)) := by
  refine ⟨rfl, ?_, ?_, ?_⟩
  · simp [readMessagesList, List.filter_append, filter_system_map_assistant,
      isSystemMsg, systemMessage, sendResultMessage]
    cases cleanExit <;> simp [sendResultMessage, isSystemMsg]
  · simp [readMessagesList, List.filter_append, filter_result_map_assistant,
      isSystemMsg, systemMessage]
    cases cleanExit <;> simp [sendResultMessage, isResultMsg]
  · refine ⟨if cleanExit then
        ⟨"success", some (finalText lines), numTurns lines, (finalText lines).length⟩
      else ⟨"error_during_execution", none, numTurns lines, 0⟩, ?_⟩
    have : readMessagesList lines cleanExit =
        (systemMessage :: (forwardedLines lines).map .assistant) ++
          [if cleanExit then sendResultMessage (finalText lines) false (numTurns lines)
           else sendResultMessage [] true (numTurns lines)] := by
      simp [readMessagesList]
    rw [this, List.getLast?_concat]
    cases cleanExit <;> simp [sendResultMessage]

/-- If at least one line was forwarded, the trimmed `aiResponseBuffer` is
nonempty, so `readMessages` does not fall back to `outputBuffer`. -/
theorem aiBuffer_trim_ne_nil (lines : List JSStr) (h : forwardedLines lines ≠ []) :
    jsTrim (aiBuffer lines) ≠ [] := by
  obtain ⟨c, hc⟩ := List.exists_mem_of_ne_nil _ h
  rw [forwardedLines, List.mem_filterMap] at hc
  obtain ⟨l, hl, hf⟩ := hc
  by_cases hcond : (!(jsTrim l).isEmpty && !isDebugOrMetaLine (jsTrim l)) = true
  · have hcnil : jsTrim l ≠ [] := by
      intro hnil
      rw [hnil] at hcond
      simp at hcond
    obtain ⟨ch, hch, hws⟩ := jsTrim_ne_nil_exists l hcnil
    have hmem : jsTrim l ∈ forwardedLines lines := by
      rw [forwardedLines, List.mem_filterMap]
      exact ⟨l, hl, by simp [hcond]⟩
    have hchai : ch ∈ aiBuffer lines := by
      rw [aiBuffer, List.mem_flatten]
      exact ⟨jsTrim l ++ ['\n'], List.mem_map_of_mem _ hmem, List.mem_append_left _ hch⟩
    intro hnil
    have hisws := (jsTrim_eq_nil_iff (aiBuffer lines)).mp hnil ch hchai
    rw [hisws] at hws
    exact Bool.noConfusion hws
  · simp [hcond] at hf

/-- Claim C4, counterexample: with the single output line `"[DEBUG] x"` and a
clean exit, no line is forwarded (the line is noise), yet the success
`result` message carries that very noise line as its text — the code falls
back from the empty `aiResponseBuffer` to the raw `outputBuffer`.  This
refutes the claim that the result text is the concatenation of exactly the
forwarded lines and that noise lines never appear in it. -/
theorem adapter_noise_in_result_counterexample :
    forwardedLines [lit "[DEBUG] x"] = [] ∧
    (readMessagesList [lit "[DEBUG] x"] true).getLast? =
      some (.result ⟨"success", some (lit "[DEBUG] x"), 1, 9⟩) ∧
    isDebugOrMetaLine (lit "[DEBUG] x") = true :=
  ⟨rfl, rfl, rfl⟩

/-- Claim C4, amended: on a clean exit the adapter emits exactly one `result`
message, of subtype `success`, whose text is the trimmed concatenation of
the forwarded lines whenever at least one line was forwarded; when no line
was forwarded the text falls back to the trimmed concatenation of all
non-blank raw lines (noise included).  When the process does not exit
cleanly, the single result message has subtype `error_during_execution`. -/
theorem adapter_result_message_text (lines : List JSStr) (cleanExit : Bool) :
    ((readMessagesList lines cleanExit).filter isResultMsg).length = 1 ∧
    (cleanExit = true → forwardedLines lines ≠ [] →
      (readMessagesList lines cleanExit).getLast? =
        some (.result ⟨"success", some (jsTrim (aiBuffer lines)), numTurns lines,
          (jsTrim (aiBuffer lines)).length⟩)) ∧
    (cleanExit = true → forwardedLines lines = [] →
      (readMessagesList lines cleanExit).getLast? =
        some (.result ⟨"success", some (jsTrim (outputBuffer lines)), numTurns lines,
          (jsTrim (outputBuffer lines)).length⟩)) ∧
    (cleanExit = false →
      (readMessagesList lines cleanExit).getLast? =
        some (.result ⟨"error_during_execution", none, numTurns lines, 0⟩)) := by
  have hsplit : ∀ b : Bool, readMessagesList lines b =
      (systemMessage :: (forwardedLines lines).map .assistant) ++
        [if b then sendResultMessage (finalText lines) false (numTurns lines)
         else sendResultMessage [] true (numTurns lines)] := by
    intro b
    simp [readMessagesList]
  refine ⟨?_, ?_, ?_, ?_⟩
  · simp [readMessagesList, List.filter_append, filter_result_map_assistant,
      isResultMsg, systemMessage]
    cases cleanExit <;> simp [sendResultMessage, isResultMsg]
  · intro hclean hfwd
    have hne := aiBuffer_trim_ne_nil lines hfwd
    have hemp : (jsTrim (aiBuffer lines)).isEmpty = false := by
      cases hjt : jsTrim (aiBuffer lines) with
      | nil => exact absurd hjt hne
      | cons a t => rfl
    have hft : finalText lines = jsTrim (aiBuffer lines) := by
      simp [finalText, hemp]
    rw [hclean, hsplit true, List.getLast?_concat]
    simp [sendResultMessage, hft]
  · intro hclean hfwd
    have hai : aiBuffer lines = [] := by
      rw [aiBuffer, hfwd]
      rfl
    have hft : finalText lines = jsTrim (outputBuffer lines) := by
      simp [finalText, hai, jsTrim]
    rw [hclean, hsplit true, List.getLast?_concat]
    simp [sendResultMessage, hft]
  · intro hclean
    rw [hclean, hsplit false, List.getLast?_concat]
    simp [sendResultMessage]

/-- Witness for the amended C4 at two concrete runs: the clean run with one
genuine output line, and a failed run. -/
theorem adapter_result_message_text_witness :
    (readMessagesList [lit "hello"] true).getLast? =
      some (.result ⟨"success", some (jsTrim (aiBuffer [lit "hello"])),
        numTurns [lit "hello"], (jsTrim (aiBuffer [lit "hello"])).length⟩) ∧
    (readMessagesList [lit "oops"] false).getLast? =
      some (.result ⟨"error_during_execution", none, numTurns [lit "oops"], 0⟩) :=
  ⟨(adapter_result_message_text [lit "hello"] true).2.1 rfl (by decide),
   (adapter_result_message_text [lit "oops"] false).2.2.2 rfl⟩

/-- Claim C3, counterexample: in the interleaving where the consumer drains
the stream only after the reader loop has finished, a spawn-failure run
surfaces to the consumer as a normal `error_during_execution` result
followed by ordinary completion — no rejected iteration ever reaches it,
because `next()` consults the queue and the done flag before the stored
error.  This refutes the claim that the failure is surfaced as an
adapter-level error for every interleaving. -/
theorem adapter_spawn_error_masked_counterexample :
    (Chan.run (Chan.init Msg)
        (readMessagesEvents [] (some spawnFailure) ++ [.next, .next, .next])).2 =
      [.value systemMessage,
       .value (.result ⟨"error_during_execution", none, 0, 0⟩),
       .finished] :=
  rfl

/-- Claim C3, amended: the failure is surfaced as a rejected iteration
exactly in those interleavings in which the consumer's `next()` is pending
when `inputStream.error` is called: whenever the channel has a pending
reader, appending the failure event makes the rejection reach the
consumer. -/
theorem adapter_error_rejects_pending_reader (p q : List (Chan.Event Msg)) (e : String)
    (h : (Chan.run (Chan.init Msg) p).1.pendingReader = true) :
    Chan.Out.rejected e ∈ (Chan.run (Chan.init Msg) (p ++ .fail e :: q)).2 := by
  rw [Chan.run_append]
  have hstep : (Chan.step (Chan.run (Chan.init Msg) p).1 (Chan.Event.fail e)).2 =
      some (.rejected e) := by
    simp [Chan.step, h]
  simp only [List.mem_append]
  right
  rw [Chan.run]
  rw [hstep]
  simp

/-- Witness for the amended C3: a consumer awaiting `next()` from the start
is rejected by the spawn-failure signal. -/
theorem adapter_error_rejects_pending_reader_witness :
    Chan.Out.rejected spawnFailure ∈
      (Chan.run (Chan.init Msg) ([.next] ++ .fail spawnFailure :: [])).2 :=
  adapter_error_rejects_pending_reader [.next] [] spawnFailure rfl

end Gemini

namespace Executor

/-- Claim C7: `executeDevelopmentCycle` reports `success:true` only when the
build-verification step was executed in that attempt and completed without
error: there is no outcome environment in which it succeeds while the build
step was skipped or failed. -/
theorem cycle_success_requires_build (env : StepOutcomes) (sid : Option String)
    (r : CycleResult)
    (h : (executeDevelopmentCycle env sid).2 = .ok r) (hs : r.success = true) :
    Step.build ∈ (executeDevelopmentCycle env sid).1 ∧ env.buildFails = none := by
  cases hc : env.claude with
  | error err =>
    by_cases hn : err.name == "BuildError"
    · simp [executeDevelopmentCycle, hc, hn] at h
      subst h
      simp at hs
    · simp [executeDevelopmentCycle, hc, hn] at h
  | ok newSid =>
    cases hb : env.buildFails with
    | some bo =>
      simp [executeDevelopmentCycle, hc, hb] at h
      subst h
      simp at hs
    | none =>
      cases hu : env.updateCompleted with
      | some err =>
        by_cases hn : err.name == "BuildError"
        · simp [executeDevelopmentCycle, hc, hb, hu, hn] at h
          subst h
          simp at hs
        · simp [executeDevelopmentCycle, hc, hb, hu, hn] at h
      | none =>
        refine ⟨?_, hb ▸ rfl⟩
        simp [executeDevelopmentCycle, hc, hb, hu]

/-- Witness for C7: the all-successful attempt ran the build step. -/
theorem cycle_success_requires_build_witness :
    Step.build ∈
      (executeDevelopmentCycle ⟨.ok (some "sess"), none, none⟩ none).1 ∧
    (⟨.ok (some "sess"), none, none⟩ : StepOutcomes).buildFails = none :=
  cycle_success_requires_build ⟨.ok (some "sess"), none, none⟩ none
    ⟨true, some "sess", none⟩ rfl rfl

end Executor

namespace Coordinator

theorem runFrom_cons (script : Nat → CycleOutcome) (origPrompt : String)
    (fuel attempt : Nat) (cp : String) (sid : Option String) (h : 0 < fuel) :
    ∃ t, (runFrom script origPrompt fuel attempt cp sid).1 =
      ⟨attempt + 1, cp, sid⟩ :: t := by
  cases fuel with
  | zero => exact absurd h (Nat.lt_irrefl 0)
  | succ fuel =>
    rw [runFrom]
    cases hs : script (attempt + 1) with
    | success newSid => exact ⟨[], rfl⟩
    | buildFailure newSid bp =>
      cases fuel with
      | zero => exact ⟨[], rfl⟩
      | succ fuel' => exact ⟨_, rfl⟩
    | thrown name =>
      cases fuel with
      | zero => exact ⟨[], rfl⟩
      | succ fuel' => exact ⟨_, rfl⟩

theorem runFrom_idx (script : Nat → CycleOutcome) (origPrompt : String) :
    ∀ (k fuel attempt : Nat) (cp : String) (sid : Option String) (r : AttemptRecord),
      (runFrom script origPrompt fuel attempt cp sid).1.get? k = some r →
      r.idx = attempt + k + 1 := by
  intro k
  induction k with
  | zero =>
    intro fuel attempt cp sid r h
    cases fuel with
    | zero =>
      rw [runFrom] at h
      simp at h
    | succ fuel =>
      obtain ⟨t, ht⟩ := runFrom_cons script origPrompt (fuel + 1) attempt cp sid (Nat.succ_pos _)
      rw [ht] at h
      simp only [List.get?] at h
      injection h with h
      rw [← h]
  | succ k ih =>
    intro fuel attempt cp sid r h
    cases fuel with
    | zero =>
      rw [runFrom] at h
      simp at h
    | succ fuel =>
      rw [runFrom] at h
      cases hs : script (attempt + 1) with
      | success newSid =>
        rw [hs] at h
        simp at h
      | buildFailure newSid bp =>
        rw [hs] at h
        cases fuel with
        | zero => simp at h
        | succ fuel' =>
          simp only [List.get?] at h
          have := ih (fuel' + 1) (attempt + 1) bp newSid r h
          omega
      | thrown name =>
        rw [hs] at h
        cases fuel with
        | zero => simp at h
        | succ fuel' =>
          simp only [List.get?] at h
          have := ih (fuel' + 1) (attempt + 1) _ sid r h
          omega

/-- Step characterization of the retry loop: if attempt `r` appears at
position `k` of the trace with at least one retry remaining, then a build
failure of that attempt is followed by an attempt with the corrective
prompt and the returned token, and a thrown error is followed by an attempt
whose prompt is kept only for a `BuildError` and reset to the original
prompt otherwise, with the session token unchanged. -/
theorem runFrom_get_succ (script : Nat → CycleOutcome) (origPrompt : String) :
    ∀ (k fuel attempt : Nat) (cp : String) (sid : Option String) (r : AttemptRecord),
      (runFrom script origPrompt fuel attempt cp sid).1.get? k = some r →
      k + 1 < fuel →
      (∀ ns bp, script r.idx = .buildFailure ns bp →
        (runFrom script origPrompt fuel attempt cp sid).1.get? (k + 1) =
          some ⟨r.idx + 1, bp, ns⟩) ∧
      (∀ name, script r.idx = .thrown name →
        (runFrom script origPrompt fuel attempt cp sid).1.get? (k + 1) =
          some ⟨r.idx + 1,
            if name == "BuildError" then r.prompt else origPrompt, r.sessionId⟩) := by
  intro k
  induction k with
  | zero =>
    intro fuel attempt cp sid r h hlt
    cases fuel with
    | zero => omega
    | succ fuel =>
      cases fuel with
      | zero => omega
      | succ fuel =>
        obtain ⟨t, ht⟩ :=
          runFrom_cons script origPrompt (fuel + 1 + 1) attempt cp sid (Nat.succ_pos _)
        have hr : r = ⟨attempt + 1, cp, sid⟩ := by
          rw [ht] at h
          simp only [List.get?] at h
          exact (Option.some.inj h).symm
        subst hr
        constructor
        · intro ns bp hs
          have hs' : script (attempt + 1) = .buildFailure ns bp := hs
          have hunf : (runFrom script origPrompt (fuel + 1 + 1) attempt cp sid).1 =
              ⟨attempt + 1, cp, sid⟩ ::
                (runFrom script origPrompt (fuel + 1) (attempt + 1) bp ns).1 := by
            rw [runFrom, hs']
          rw [hunf]
          simp only [List.get?]
          obtain ⟨t2, ht2⟩ :=
            runFrom_cons script origPrompt (fuel + 1) (attempt + 1) bp ns (Nat.succ_pos _)
          rw [ht2]
          rfl
        · intro name hs
          have hs' : script (attempt + 1) = .thrown name := hs
          have hunf : (runFrom script origPrompt (fuel + 1 + 1) attempt cp sid).1 =
              ⟨attempt + 1, cp, sid⟩ ::
                (runFrom script origPrompt (fuel + 1) (attempt + 1)
                  (if name == "BuildError" then cp else origPrompt) sid).1 := by
            rw [runFrom, hs']
          rw [hunf]
          simp only [List.get?]
          obtain ⟨t2, ht2⟩ :=
            runFrom_cons script origPrompt (fuel + 1) (attempt + 1)
              (if name == "BuildError" then cp else origPrompt) sid (Nat.succ_pos _)
          rw [ht2]
          rfl
  | succ k ih =>
    intro fuel attempt cp sid r h hlt
    cases fuel with
    | zero => omega
    | succ fuel =>
      cases hs0 : script (attempt + 1) with
      | success newSid =>
        have hunf : (runFrom script origPrompt (fuel + 1) attempt cp sid).1 =
            [⟨attempt + 1, cp, sid⟩] := by
          rw [runFrom, hs0]
        rw [hunf] at h
        simp at h
      | buildFailure ns0 bp0 =>
        cases fuel with
        | zero => omega
        | succ fuel =>
          have hunf : (runFrom script origPrompt (fuel + 1 + 1) attempt cp sid).1 =
              ⟨attempt + 1, cp, sid⟩ ::
                (runFrom script origPrompt (fuel + 1) (attempt + 1) bp0 ns0).1 := by
            rw [runFrom, hs0]
          rw [hunf] at h
          simp only [List.get?] at h
          have hin := ih (fuel + 1) (attempt + 1) bp0 ns0 r h (by omega)
          rw [hunf]
          refine ⟨?_, ?_⟩
          · intro ns bp hs
            simp only [List.get?]
            exact hin.1 ns bp hs
          · intro name hs
            simp only [List.get?]
            exact hin.2 name hs
      | thrown name0 =>
        cases fuel with
        | zero => omega
        | succ fuel =>
          have hunf : (runFrom script origPrompt (fuel + 1 + 1) attempt cp sid).1 =
              ⟨attempt + 1, cp, sid⟩ ::
                (runFrom script origPrompt (fuel + 1) (attempt + 1)
                  (if name0 == "BuildError" then cp else origPrompt) sid).1 := by
            rw [runFrom, hs0]
          rw [hunf] at h
          simp only [List.get?] at h
          have hin := ih (fuel + 1) (attempt + 1)
            (if name0 == "BuildError" then cp else origPrompt) sid r h (by omega)
          rw [hunf]
          refine ⟨?_, ?_⟩
          · intro ns bp hs
            simp only [List.get?]
            exact hin.1 ns bp hs
          · intro name hs
            simp only [List.get?]
            exact hin.2 name hs

/-- Claim C2: for every attempt `k` with `k < maxRetries` that ends in a
build failure, the coordinator starts attempt `k+1` whose prompt equals the
`buildErrorPrompt` returned by attempt `k` and whose backend session token
equals the token attempt `k` returned, so the retry resumes that backend
conversation rather than starting cold. -/
theorem coordinator_build_failure_retry (script : Nat → CycleOutcome)
    (aiPrompt : String) (initialSid : Option String) (k : Nat) (r : AttemptRecord)
    (ns : Option String) (bp : String)
    (h : (coordinatorRun script aiPrompt initialSid).1.get? k = some r)
    (hidx : r.idx < maxRetries)
    (hs : script r.idx = .buildFailure ns bp) :
    (coordinatorRun script aiPrompt initialSid).1.get? (k + 1) =
      some ⟨r.idx + 1, bp, ns⟩ := by
  have hk : r.idx = k + 1 := by
    simpa using runFrom_idx script aiPrompt k maxRetries 0 aiPrompt initialSid r h
  have hm : maxRetries = 3 := rfl
  exact (runFrom_get_succ script aiPrompt k maxRetries 0 aiPrompt initialSid r h
    (by omega)).1 ns bp hs

/-- Witness for C2: after the build failure of attempt 1, attempt 2 runs
with the corrective prompt and attempt 1's session token. -/
theorem coordinator_build_failure_retry_witness :
    (coordinatorRun buildRetryScript "orig prompt" none).1.get? 1 =
      some ⟨2, "fix the TS2304 error", some "sess-1"⟩ :=
  coordinator_build_failure_retry buildRetryScript "orig prompt" none 0
    ⟨1, "orig prompt", none⟩ (some "sess-1") "fix the TS2304 error" rfl
    (by decide) rfl

/-- Claim C1, counterexample: with `maxRetries = 3`, a first attempt that
fails with an `InsufficientCreditError` is followed by attempt 2 — the
catch block of the retry loop retries every error kind while attempts
remain — and when that attempt succeeds the run completes normally, so the
job does not remain in a terminal `ERROR` state either.  This refutes the
claim that an `InsufficientCreditError` immediately ends the job with
status `ERROR` and that no further attempt is started. -/
theorem insufficient_credit_counterexample :
    (coordinatorRun creditScript "orig" none).1.map AttemptRecord.idx = [1, 2] ∧
    (coordinatorRun creditScript "orig" none).2 = .completed none :=
  ⟨rfl, rfl⟩

/-- Claim C1, amended: an `InsufficientCreditError` on an attempt with
retries remaining does not end the job: the coordinator starts the next
attempt, with the prompt reset to the original instruction and the session
token unchanged; the error is fatal only when it occurs on the final
attempt. -/
theorem insufficient_credit_retried (script : Nat → CycleOutcome)
    (aiPrompt : String) (initialSid : Option String) (k : Nat) (r : AttemptRecord)
    (h : (coordinatorRun script aiPrompt initialSid).1.get? k = some r)
    (hidx : r.idx < maxRetries)
    (hs : script r.idx = .thrown "InsufficientCreditError") :
    (coordinatorRun script aiPrompt initialSid).1.get? (k + 1) =
      some ⟨r.idx + 1, aiPrompt, r.sessionId⟩ := by
  have hk : r.idx = k + 1 := by
    simpa using runFrom_idx script aiPrompt k maxRetries 0 aiPrompt initialSid r h
  have hm : maxRetries = 3 := rfl
  have hres := (runFrom_get_succ script aiPrompt k maxRetries 0 aiPrompt initialSid r h
    (by omega)).2 "InsufficientCreditError" hs
  have hne : ("InsufficientCreditError" == "BuildError") = false := by decide
  rw [hne] at hres
  simpa using hres

/-- Witness for the amended C1: attempt 2 of the credit-error run starts
with the original prompt. -/
theorem insufficient_credit_retried_witness :
    (coordinatorRun creditScript "orig" none).1.get? 1 = some ⟨2, "orig", none⟩ :=
  insufficient_credit_retried creditScript "orig" none 0 ⟨1, "orig", none⟩ rfl
    (by decide) rfl

end Coordinator

namespace Manager

/-- Claim C8: Stop is only valid on a running session — on any other status
it is rejected with no state change, and on an unknown session it is a 404;
on a running session it sends the graceful signal, sets the status to
`stopped` immediately (hence within the grace period, whatever the
subprocess does), schedules the forced kill, and the grace-period callback
force-kills exactly when the process has not exited. -/
theorem stop_agent_spec (s : Session) :
    (s.status ≠ .running →
      stopAgent (some s) = ⟨.notRunning, some s, false, false⟩) ∧
    (s.status = .running →
      stopAgent (some s) =
        ⟨.stopSignalSent, some { s with status := .stopped }, true, true⟩) ∧
    (stopAgent none).response = .notFound ∧
    (∀ ec, graceKillFires { s with exitCode := ec } = (ec == none)) := by
  refine ⟨?_, ?_, rfl, ?_⟩
  · intro h
    simp [stopAgent, h]
  · intro h
    simp [stopAgent, h]
  · intro ec
    rfl

/-- Witness for C8 at a concrete running session and a concrete completed
one. -/
theorem stop_agent_spec_witness :
    stopAgent (some ⟨"s1", .running, 0, none⟩) =
      ⟨.stopSignalSent, some ⟨"s1", .stopped, 0, none⟩, true, true⟩ ∧
    stopAgent (some ⟨"s2", .completed, 0, some 0⟩) =
      ⟨.notRunning, some ⟨"s2", .completed, 0, some 0⟩, false, false⟩ :=
  ⟨(stop_agent_spec ⟨"s1", .running, 0, none⟩).2.1 rfl,
   (stop_agent_spec ⟨"s2", .completed, 0, some 0⟩).1 (by decide)⟩

/-- Claim C9: the periodic sweep removes a session if and only if its status
is not `running` and more than 30 minutes have elapsed since its
`startTime`; a running session is never removed, whatever its age, and
hence still appears in the List snapshot taken after the sweep. -/
theorem cleanup_sweep_spec (now : Int) (sessions : List Session) (s : Session) :
    (s ∈ cleanupSweep now sessions ↔
      s ∈ sessions ∧ ¬(s.status ≠ .running ∧ now - s.startTime > retentionMs)) ∧
    (s.status = .running → s ∈ sessions →
      s ∈ cleanupSweep now sessions ∧
      (⟨s.sessionId, s.status, s.startTime, s.exitCode⟩ : SessionSummary) ∈
        listSessions (cleanupSweep now sessions)) := by
  have hmem : s ∈ cleanupSweep now sessions ↔
      s ∈ sessions ∧ ¬(s.status ≠ .running ∧ now - s.startTime > retentionMs) := by
    simp [cleanupSweep, List.mem_filter, sweepRemoves]
    tauto
  refine ⟨hmem, ?_⟩
  intro hrun hin
  have hkeep : s ∈ cleanupSweep now sessions := by
    rw [hmem]
    exact ⟨hin, fun hc => hc.1 (by rw [hrun])⟩
  exact ⟨hkeep, List.mem_map_of_mem _ hkeep⟩

/-- Witness for C9 at a concrete registry: the hour-old running session
survives the sweep and is listed; membership of the fresh completed session
follows the stated equivalence. -/
theorem cleanup_sweep_spec_witness :
    ((⟨"old-running", .running, 0, none⟩ : Session) ∈
        cleanupSweep 3600000 [⟨"old-running", .running, 0, none⟩] ∧
      (⟨"old-running", .running, 0, none⟩ : SessionSummary) ∈
        listSessions (cleanupSweep 3600000 [⟨"old-running", .running, 0, none⟩])) ∧
    ((⟨"old-done", .completed, 0, some 0⟩ : Session) ∈
        cleanupSweep 3600000 [⟨"old-done", .completed, 0, some 0⟩] ↔
      (⟨"old-done", .completed, 0, some 0⟩ : Session) ∈
          [(⟨"old-done", .completed, 0, some 0⟩ : Session)] ∧
        ¬((⟨"old-done", .completed, 0, some 0⟩ : Session).status ≠ .running ∧
          (3600000 : Int) - 0 > retentionMs)) :=
  ⟨(cleanup_sweep_spec 3600000 [⟨"old-running", .running, 0, none⟩]
      ⟨"old-running", .running, 0, none⟩).2 rfl (by simp),
   (cleanup_sweep_spec 3600000 [⟨"old-done", .completed, 0, some 0⟩]
      ⟨"old-done", .completed, 0, some 0⟩).1⟩

/-- Claim C10: once the Stop operation has set a session's status to
`stopped`, the child-process close handler leaves it `stopped` for every
exit code — zero, non-zero or null — neither overwriting it to `error` nor
to `completed`. -/
theorem close_handler_keeps_stopped (exitCode : Option Int) :
    closeHandlerStatus .stopped exitCode = .stopped := by
  simp [closeHandlerStatus]

end Manager
